import Mathlib

/-!
Shallow embedding of the two core services of the campus-assist repository
(`src/services/DocumentProcessor.js` and `src/services/HumanHandoffManager.js`)
together with proofs settling the specification claims about them.

Modelling conventions:
* JavaScript strings are Lean `String`; all character-level work happens on
  `String.data` (`List Char`) so that every definition kernel-evaluates.
* JavaScript `Map` objects are association lists `List (String × α)` in
  insertion order; `Map.set` updates in place for an existing key and appends
  a fresh key at the end, exactly like JS.
* JavaScript `Set` objects are duplicate-free lists in insertion order;
  `Set.add` appends when the element is absent.
* JS numbers are `Nat` where the source only ever holds non-negative integers
  and `ℚ` where fractional arithmetic occurs (escalation scores, similarity,
  handoff rate).  No claim in scope depends on a float-rounding knife edge.
-/

namespace CampusAssist

/-- ASCII lower-casing of a single character, mirroring what
`String.prototype.toLowerCase` does on the ASCII inputs that occur here. -/
def jsCharLower (c : Char) : Char :=
  if c.toNat ≥ 65 ∧ c.toNat ≤ 90 then Char.ofNat (c.toNat + 32) else c

/-- JS `s.toLowerCase()`. -/
def jsToLower (s : String) : String :=
  String.mk (s.data.map jsCharLower)

/-- Does `hay` start with `needle` (character lists)? -/
def startsWithL : List Char → List Char → Bool
  | [], _ => true
  | _ :: _, [] => false
  | a :: as, b :: bs => a == b && startsWithL as bs

/-- Does `hay` contain `needle` as a contiguous substring (character lists)?
Mirrors JS `hay.includes(needle)`. -/
def containsL (needle : List Char) : List Char → Bool
  | [] => startsWithL needle []
  | c :: rest => startsWithL needle (c :: rest) || containsL needle rest

/-- JS `hay.includes(needle)` on strings. -/
def containsStr (hay needle : String) : Bool :=
  containsL needle.data hay.data

/-- Is `c` a JS `\s` whitespace character (the cases relevant here)? -/
def isJsWs (c : Char) : Bool :=
  c == ' ' || c == '\t' || c == '\n' || c == '\r'

/-- Worker for `jsSplitWs`: `inSep` records whether the previous character
belonged to a separator run (so the run is extended rather than emitting an
extra empty piece). -/
def splitWsAux : List Char → List Char → Bool → List (List Char)
  | [], cur, _ => [cur.reverse]
  | c :: cs, cur, inSep =>
    if isJsWs c then
      if inSep then splitWsAux cs cur true
      else cur.reverse :: splitWsAux cs [] true
    else splitWsAux cs (c :: cur) false

/-- JS `s.split(/\s+/)`: split at maximal whitespace runs; a run touching the
start or end of the string contributes an empty piece, as in JS. -/
def jsSplitWs (s : String) : List String :=
  (splitWsAux s.data [] false).map String.mk

/-- Worker for `jsSplitBsS`.  The separator of the corrupted source regex
`/\\s+/` is one literal backslash followed by one or more letters `s`;
the `sRun` flag means we are still consuming the greedy `s` run. -/
def splitBsAux : List Char → List Char → Bool → List (List Char)
  | [], cur, _ => [cur.reverse]
  | c :: cs, cur, sRun =>
    if sRun && c == 's' then splitBsAux cs cur true
    else if c == '\\' && startsWithL ['s'] cs then cur.reverse :: splitBsAux cs [] true
    else splitBsAux cs (c :: cur) false

/-- JS `s.split(/\\s+/)` as it literally appears in
`HumanHandoffManager.calculateSimilarity`: the pattern matches a literal
backslash followed by a run of `s` characters, NOT whitespace. -/
def jsSplitBsS (s : String) : List String :=
  (splitBsAux s.data [] false).map String.mk


/-- `Array.prototype.filter` keeping only elements present in `other`
(JS `includes` membership); this keeps duplicates of the left operand,
exactly like the source's intersection. -/
def listIntersect (l other : List String) : List String :=
  l.filter (fun w => other.contains w)

/-- JS `[...new Set(l)]`: duplicates removed, first occurrence kept. -/
def dedupFirst (l : List String) : List String :=
  l.foldl (fun acc x => if acc.contains x then acc else acc ++ [x]) []

/-- JS `map.get(key)` on an insertion-ordered association list. -/
def mapGet (m : List (String × α)) (k : String) : Option α :=
  (m.find? (fun e => e.1 == k)).map (·.2)

/-- JS `map.set(key, value)`: update in place when the key exists, append
otherwise. -/
def mapSet (m : List (String × α)) (k : String) (v : α) : List (String × α) :=
  if m.any (fun e => e.1 == k) then
    m.map (fun e => if e.1 == k then (k, v) else e)
  else m ++ [(k, v)]

/-- JS `set.add(x)` on a duplicate-free insertion-ordered list. -/
def setAdd (s : List String) (x : String) : List String :=
  if s.contains x then s else s ++ [x]

/-- Insert a scored entry into a list sorted by score descending, going past
every entry with a greater-or-equal score; used to model the (stable) JS
`Array.prototype.sort` with comparator `(a, b) => b[1] - a[1]`. -/
def insertScoreDesc (x : String × Nat) : List (String × Nat) → List (String × Nat)
  | [] => [x]
  | y :: ys => if y.2 < x.2 then x :: y :: ys else y :: insertScoreDesc x ys

/-- Stable sort by score descending (insertion sort, left-to-right, so equal
scores keep their original relative order exactly like the ES2019+ stable
`Array.prototype.sort`). -/
def sortScoreDesc (l : List (String × Nat)) : List (String × Nat) :=
  l.foldl (fun acc x => insertScoreDesc x acc) []

/-- Numeric value of an all-digit key. -/
def digitsToNat (l : List Char) : Nat :=
  l.foldl (fun n c => n * 10 + (c.toNat - 48)) 0

/-- Is `s` a canonical JS array-index property key (all digits, no leading
zero except `"0"` itself, value below `2^32 - 1`)?  Such keys are enumerated
first, in ascending numeric order, by `Object.entries`. -/
def isArrayIndexKey (s : String) : Bool :=
  s.data ≠ [] && s.data.all (fun c => c.isDigit) &&
    (s == "0" || s.data.headD '0' != '0') &&
    digitsToNat s.data < 4294967295

/-- Insert into a list sorted ascending by the numeric value of the key. -/
def insertNumAsc (x : String × α) : List (String × α) → List (String × α)
  | [] => [x]
  | y :: ys =>
    if digitsToNat x.1.data < digitsToNat y.1.data then x :: y :: ys
    else y :: insertNumAsc x ys

/-- Sort association-list entries ascending by numeric key value. -/
def sortNumAsc (l : List (String × α)) : List (String × α) :=
  l.foldl (fun acc x => insertNumAsc x acc) []

/-- The entry order produced by `Object.fromEntries` followed by
`Object.entries` on a map whose keys are strings: canonical array-index keys
first in ascending numeric order, then the remaining keys in insertion
order. -/
def jsObjFromMap (l : List (String × α)) : List (String × α) :=
  sortNumAsc (l.filter (fun e => isArrayIndexKey e.1)) ++
    l.filter (fun e => !isArrayIndexKey e.1)

/-! ## DocumentProcessor (`src/services/DocumentProcessor.js`) -/

/-- A browser `File` as the processor consumes it: its name and the text the
environment can read from it (`file.text()`). -/
structure JsFile where
  name : String
  text : String
deriving Repr, DecidableEq

/-- One extracted section (`extractSections` output shape). -/
structure Section where
  title : String
  content : String
  position : Nat
deriving Repr, DecidableEq

/-- One extracted FAQ pair (`extractFAQs` output shape). -/
structure FAQ where
  question : String
  answer : String
  language : String
deriving Repr, DecidableEq

/-- One extracted entity (`extractEntities` output shape). -/
structure Entity where
  kind : String
  value : String
  context : String
deriving Repr, DecidableEq

/-- Output of `processContent`: the structured knowledge stored per document.
The regex-driven segmenters that fill it (`extractSections`, `extractFAQs`,
`extractEntities`, `extractKeyTopics`) are outside every claim in scope and
are treated as producers of this structure. -/
structure ProcessedData where
  originalContent : String
  sections : List Section
  faqs : List FAQ
  entities : List Entity
deriving Repr, DecidableEq

/-- The `DocumentProcessor` instance state: `extractedKnowledge` and
`multilingualIndex`, both JS `Map`s (association lists in insertion order);
index values are JS `Set`s of part ids (duplicate-free lists). -/
structure DocState where
  extractedKnowledge : List (String × ProcessedData)
  multilingualIndex : List (String × List String)
deriving Repr, DecidableEq

/-- The freshly constructed processor. -/
def DocState.empty : DocState := ⟨[], []⟩

/-- `this.supportedFormats` from the constructor. -/
def supportedFormats : List String := ["pdf", "docx", "txt", "doc"]

/-- JS `name.split('.')` at the character level (each dot separates;
consecutive dots yield empty pieces). -/
def splitDotAux : List Char → List Char → List (List Char)
  | [], cur => [cur.reverse]
  | c :: cs, cur =>
    if c = '.' then cur.reverse :: splitDotAux cs []
    else splitDotAux cs (c :: cur)

/-- `file.name.split('.').pop().toLowerCase()`. -/
def fileExt (name : String) : String :=
  jsToLower (String.mk ((splitDotAux name.data []).getLastD []))

/-- `isValidFormat`. -/
def isValidFormat (file : JsFile) : Bool :=
  supportedFormats.contains (fileExt file.name)

/-- Skip to just after the next `>`; `none` when there is no `>` left. -/
def afterGt : List Char → Option (List Char)
  | [] => none
  | c :: t => if c = '>' then some t else afterGt t

theorem afterGt_length_lt : ∀ l r, afterGt l = some r → r.length < l.length := by
  intro l
  induction l with
  | nil => intro r h; simp [afterGt] at h
  | cons c t ih =>
    intro r h
    simp only [afterGt] at h
    split at h
    · cases h; simp
    · exact Nat.lt_trans (ih r h) (by simp)

/-- The global replacement `text.replace(/<[^>]*>/g, '')` used by
`extractDocxContent`: each `<` with a later `>` is removed together with the
enclosed characters. -/
def stripTags : List Char → List Char
  | [] => []
  | c :: t =>
    if c = '<' then
      match h : afterGt t with
      | some r => stripTags r
      | none => c :: t
    else c :: stripTags t
termination_by l => l.length
decreasing_by
  · exact Nat.lt_trans (afterGt_length_lt _ _ h) (by simp)
  · simp

/-- `extractContent`, with PDF extraction (the `pdfjs-dist` collaborator)
passed in as `pdfX`.  DOCX reads the file text and strips XML tags; DOC
throws unconditionally (`extractDocContent`); TXT reads the file text. -/
def extractContent (pdfX : JsFile → Except String String) (file : JsFile) :
    Except String String :=
  let ft := fileExt file.name
  if ft = "pdf" then pdfX file
  else if ft = "docx" then .ok (String.mk (stripTags file.text.data))
  else if ft = "doc" then
    .error "DOC format not supported. Please convert to DOCX, PDF, or TXT format."
  else if ft = "txt" then .ok file.text
  else .error ("Unsupported file format: " ++ ft)

/-- `storeKnowledge`; the generated id (`Date.now()`/`Math.random()` based in
the source) is passed in as `kid`. -/
def storeKnowledge (st : DocState) (kid : String) (pd : ProcessedData) : DocState :=
  { st with extractedKnowledge := mapSet st.extractedKnowledge kid pd }

/-- `addToIndex(id, content, title)`: post every lower-cased
whitespace-token of length `> 2` of `content` to the body table under key
`word`, and, when `title` is truthy (non-empty), every such token of `title`
to the title table under key `"title_" ++ word`. -/
def addToIndex (st : DocState) (id content title : String) : DocState :=
  let idx1 := (jsSplitWs (jsToLower content)).foldl
    (fun idx w =>
      if w.length > 2 then mapSet idx w (setAdd ((mapGet idx w).getD []) id) else idx)
    st.multilingualIndex
  let idx2 :=
    if title ≠ "" then
      (jsSplitWs (jsToLower title)).foldl
        (fun idx w =>
          if w.length > 2 then
            mapSet idx ("title_" ++ w) (setAdd ((mapGet idx ("title_" ++ w)).getD []) id)
          else idx)
        idx1
    else idx1
  { st with multilingualIndex := idx2 }

/-- `createMultilingualIndex`: index sections, FAQs and entities of a stored
document under synthetic part ids. -/
def createMultilingualIndex (st : DocState) (pd : ProcessedData) (kid : String) : DocState :=
  let st1 := (pd.sections.enum).foldl
    (fun s p => addToIndex s (kid ++ "_section_" ++ toString p.1) p.2.content p.2.title) st
  let st2 := (pd.faqs.enum).foldl
    (fun s p => addToIndex s (kid ++ "_faq_" ++ toString p.1)
      (p.2.question ++ " " ++ p.2.answer) p.2.question) st1
  (pd.entities.enum).foldl
    (fun s p => addToIndex s (kid ++ "_entity_" ++ toString p.1) p.2.context p.2.value) st2

/-- The scoring fold of `searchKnowledge` over one query word against the
raw index: `+1` per body-table hit, `+3` per title-table hit. -/
def scoreWord (idx : List (String × List String)) (m : List (String × Nat))
    (w : String) : List (String × Nat) :=
  let m1 := match mapGet idx w with
    | some ids => ids.foldl (fun acc id => mapSet acc id (((mapGet acc id).getD 0) + 1)) m
    | none => m
  match mapGet idx ("title_" ++ w) with
  | some ids => ids.foldl (fun acc id => mapSet acc id (((mapGet acc id).getD 0) + 3)) m1
  | none => m1

/-- `searchKnowledge` against a raw index value. -/
def searchIdx (idx : List (String × List String)) (query : String) (limit : Nat) :
    List (String × Nat) :=
  let queryWords := jsSplitWs (jsToLower query)
  let matchScores := queryWords.foldl (scoreWord idx) []
  (sortScoreDesc matchScores).take limit

/-- `searchKnowledge(query, limit)`: accumulate scores per part id, sort by
score descending (stable), truncate to `limit`. -/
def searchKnowledge (st : DocState) (query : String) (limit : Nat) :
    List (String × Nat) :=
  searchIdx st.multilingualIndex query limit

/-- The object produced by `exportKnowledgeBase`. -/
structure ExportedKB where
  knowledge : List (String × ProcessedData)
  index : List (String × List String)
  exportedAt : String
deriving Repr, DecidableEq

/-- `exportKnowledgeBase`: both maps become plain objects
(`Object.fromEntries`), index sets become arrays in insertion order;
`exportedAt` is the current timestamp, passed in as `now`. -/
def exportKnowledgeBase (st : DocState) (now : String) : ExportedKB :=
  { knowledge := jsObjFromMap st.extractedKnowledge
    index := jsObjFromMap st.multilingualIndex
    exportedAt := now }

/-- `importKnowledgeBase`: rebuild both maps from the exported objects; index
arrays go through `new Set(array)`, which drops duplicates keeping first
occurrences. -/
def importKnowledgeBase (ed : ExportedKB) : DocState :=
  { extractedKnowledge := ed.knowledge
    multilingualIndex := ed.index.map (fun e => (e.1, dedupFirst e.2)) }

/-- The result object of a successful `ingestDocument`. -/
structure IngestResult where
  success : Bool
  knowledgeId : String
  contentLength : Nat
  sectionsExtracted : Nat
  faqsExtracted : Nat
deriving Repr, DecidableEq

/-- `ingestDocument`: validate the format, extract content, process it
(`process` stands for the regex-driven `processContent` segmentation, outside
every claim in scope), store the knowledge and index it.  Any thrown error is
re-thrown wrapped in `Failed to process document: `; on failure the instance
state is returned unchanged, since the source mutates its maps only after
extraction has succeeded. -/
def ingestDocument (pdfX : JsFile → Except String String)
    (process : String → ProcessedData) (kid : String)
    (st : DocState) (file : JsFile) : DocState × Except String IngestResult :=
  if ¬ isValidFormat file then
    (st, .error ("Failed to process document: Unsupported file format: " ++ file.name))
  else
    match extractContent pdfX file with
    | .error e => (st, .error ("Failed to process document: " ++ e))
    | .ok content =>
      let pd := process content
      let st1 := storeKnowledge st kid pd
      let st2 := createMultilingualIndex st1 pd kid
      (st2, .ok { success := true, knowledgeId := kid,
                  contentLength := content.length,
                  sectionsExtracted := pd.sections.length,
                  faqsExtracted := pd.faqs.length })

/-- A Unicode block range `[lo, hi]` of code points. -/
structure ScriptRange where
  lo : Nat
  hi : Nat
deriving Repr, DecidableEq

/-- `(content.match(/[range]/g) || []).length`: the number of characters of
`content` inside the block range. -/
def countMatches (content : String) (r : ScriptRange) : Nat :=
  (content.data.filter (fun c => r.lo ≤ c.toNat && c.toNat ≤ r.hi)).length

/-- The Devanagari block, shared by the Hindi and Marathi patterns
(source comment: Marathi uses Devanagari like Hindi). -/
def devanagariRange : ScriptRange := ⟨0x0900, 0x097F⟩

/-- The `patterns` table of `detectPrimaryLanguage`, in object insertion
order; Hindi and Marathi deliberately share the Devanagari block. -/
def languagePatterns : List (String × ScriptRange) :=
  [("hi", devanagariRange),
   ("mr", devanagariRange),
   ("gu", ⟨0x0A80, 0x0AFF⟩),
   ("bn", ⟨0x0980, 0x09FF⟩),
   ("ta", ⟨0x0B80, 0x0BFF⟩),
   ("te", ⟨0x0C00, 0x0C7F⟩),
   ("kn", ⟨0x0C80, 0x0CFF⟩)]

/-- The `Object.entries(patterns).forEach` loop with its running
`maxMatches`/`detectedLang` accumulator: a later language takes over only on
a strictly greater match count. -/
def detectGo (content : String) : List (String × ScriptRange) → Nat → String → String
  | [], _, detected => detected
  | (lang, r) :: rest, maxMatches, detected =>
    let m := countMatches content r
    if maxMatches < m then detectGo content rest m lang
    else detectGo content rest maxMatches detected

/-- `detectPrimaryLanguage`. -/
def detectPrimaryLanguage (content : String) : String :=
  detectGo content languagePatterns 0 "en"

/-! ## HumanHandoffManager (`src/services/HumanHandoffManager.js`) -/

/-- One escalation rule as registered by `setupEscalationRules`. -/
structure Rule where
  name : String
  triggers : List String
  priority : String
  department : String
  estimatedWaitTime : Nat
deriving Repr, DecidableEq

/-- `setupEscalationRules`: the five rules in `Map` insertion (registration)
order. -/
def escalationRules : List Rule :=
  [{ name := "complex_financial",
     triggers := ["loan", "EMI", "refund", "scholarship eligibility",
                  "financial aid calculation"],
     priority := "high", department := "finance", estimatedWaitTime := 300 },
   { name := "technical_issues",
     triggers := ["portal not working", "login failed", "payment error",
                  "technical problem"],
     priority := "urgent", department := "IT", estimatedWaitTime := 180 },
   { name := "academic_complex",
     triggers := ["course change", "credit transfer", "grade appeal",
                  "academic calendar"],
     priority := "medium", department := "academic", estimatedWaitTime := 600 },
   { name := "admission_complex",
     triggers := ["document verification", "eligibility query", "admission appeal"],
     priority := "high", department := "admissions", estimatedWaitTime := 450 },
   { name := "complaints",
     triggers := ["complaint", "unsatisfied", "problem with", "issue with"],
     priority := "medium", department := "admin", estimatedWaitTime := 720 }]

/-- The `complexityTriggers` list of `analyzeEscalationNeed`. -/
def complexityTriggers : List String :=
  ["multiple", "various", "different", "complex", "complicated",
   "several", "many", "numerous", "detailed", "specific"]

/-- The `frustrationTriggers` list of `analyzeEscalationNeed`.  The source
file literally contains the over-escaped token `doesn\\'t work` (which even
breaks JS parsing); the evidently intended phrase `doesn\x27t work` is used
here — no claim in scope depends on that entry either way. -/
def frustrationTriggers : List String :=
  ["frustrated", "annoyed", "angry", "upset", "disappointed",
   "not working", "doesn\x27t work", "problem", "issue", "error",
   "help me", "urgent", "immediately", "asap"]

/-- `calculateSimilarity(msg1, msg2)` exactly as in the source: both messages
are lower-cased and split with the regex literal `/\\s+/` (which matches a
literal backslash plus a run of `s` characters, NOT whitespace — the source
regex is over-escaped), then `|intersection| / |union|` is returned. -/
def calculateSimilarity (msg1 msg2 : String) : ℚ :=
  let words1 := jsSplitBsS (jsToLower msg1)
  let words2 := jsSplitBsS (jsToLower msg2)
  let inter := listIntersect words1 words2
  let uni := dedupFirst (words1 ++ words2)
  (inter.length : ℚ) / (uni.length : ℚ)

/-- Modelled from the spec: the word-overlap similarity that §4.4 step 2 of
the specification describes — `|intersection| / |union|` over lower-cased
WHITESPACE-split tokens.  Kept beside `calculateSimilarity` to exhibit how
the source's over-escaped split regex diverges from the specified behaviour. -/
def specSimilarity (msg1 msg2 : String) : ℚ :=
  let words1 := jsSplitWs (jsToLower msg1)
  let words2 := jsSplitWs (jsToLower msg2)
  let inter := listIntersect words1 words2
  let uni := dedupFirst (words1 ++ words2)
  (inter.length : ℚ) / (uni.length : ℚ)

/-- The four escalation signal counters. -/
structure Signals where
  complexity : Nat
  frustration : Nat
  specificity : Nat
  urgency : Nat
deriving Repr, DecidableEq

/-- The recommendation object built by `getEscalationRecommendation`. -/
structure Recommendation where
  priority : String
  department : String
  estimatedWaitTime : Nat
  reason : String
deriving Repr, DecidableEq

/-- One stored conversation turn, as consulted by `analyzeEscalationNeed`
(`msg.message`) and `initiateHandoff` (`turn.language`). -/
structure CtxEntry where
  message : String
  language : Option String
deriving Repr, DecidableEq

/-- The object returned by `analyzeEscalationNeed`. -/
structure Assessment where
  shouldEscalate : Bool
  confidence : ℚ
  matchedRule : Option Rule
  signals : Signals
  recommendation : Option Recommendation
deriving Repr, DecidableEq

/-- The `for (const [ruleName, rule] of this.escalationRules)` loop with its
`break`: the first rule, in registration order, with some trigger contained
in the lower-cased message. -/
def findMatchedRule (messageLower : String) : List Rule → Option Rule
  | [] => none
  | r :: rest =>
    if r.triggers.any (fun t => containsStr messageLower (jsToLower t)) then some r
    else findMatchedRule messageLower rest

/-- `getEscalationRecommendation(score, matchedRule)`. -/
def getEscalationRecommendation (score : ℚ) (matchedRule : Option Rule) :
    Option Recommendation :=
  match matchedRule with
  | some r =>
    some { priority := r.priority, department := r.department,
           estimatedWaitTime := r.estimatedWaitTime,
           reason := "Matched rule: " ++ r.name }
  | none =>
    if score ≥ 4 then
      some { priority := "urgent", department := "general",
             estimatedWaitTime := 180,
             reason := "High complexity/frustration detected" }
    else if score ≥ 2 then
      some { priority := "medium", department := "general",
             estimatedWaitTime := 600,
             reason := "Moderate escalation signals" }
    else none

/-- The `forEach` trigger counters of `analyzeEscalationNeed`: `+1` per
trigger phrase contained in the lower-cased message. -/
def countTriggers (triggers : List String) (messageLower : String) : Nat :=
  (triggers.filter (fun t => containsStr messageLower t)).length

/-- The repeated-query frustration bonus of `analyzeEscalationNeed`: when
the context holds more than 3 turns and at least 2 of the last 3 stored
messages have `calculateSimilarity` above `0.7` with the current message,
`2` is added to the frustration counter (once per analysis call). -/
def repetitionBoost (message : String) (context : List CtxEntry) : Nat :=
  if context.length > 3 then
    let recentMessages := context.drop (context.length - 3)
    let similarQueries := recentMessages.filter
      (fun msg => calculateSimilarity msg.message message > 7/10)
    if similarQueries.length ≥ 2 then 2 else 0
  else 0

/-- The weighted escalation score
`complexity·0.3 + frustration·0.4 + specificity·0.2 + urgency·0.1`. -/
def totalScoreOf (signals : Signals) : ℚ :=
  (signals.complexity : ℚ) * (3/10) + (signals.frustration : ℚ) * (4/10) +
    (signals.specificity : ℚ) * (2/10) + (signals.urgency : ℚ) * (1/10)

/-- `analyzeEscalationNeed(message, context)`.  `shouldEscalate` in the
source is `totalScore >= 2 || matchedRule`, a truthy check on the rule
object, modelled as the corresponding boolean.  The specificity and urgency
counters are declared and weighted but never incremented anywhere in the
source, hence `0`. -/
def analyzeEscalationNeed (message : String) (context : List CtxEntry) : Assessment :=
  let messageLower := jsToLower message
  let signals : Signals :=
    { complexity := countTriggers complexityTriggers messageLower
      frustration := countTriggers frustrationTriggers messageLower +
        repetitionBoost message context
      specificity := 0
      urgency := 0 }
  let matchedRule := findMatchedRule messageLower escalationRules
  let totalScore := totalScoreOf signals
  { shouldEscalate := decide (totalScore ≥ 2) || matchedRule.isSome
    confidence := min (totalScore / 5) 1
    matchedRule := matchedRule
    signals := signals
    recommendation := getEscalationRecommendation totalScore matchedRule }

/-- One queued handoff request as built by `initiateHandoff`. -/
structure HandoffRequest where
  id : String
  userId : String
  timestamp : String
  context : List CtxEntry
  escalationInfo : Assessment
  status : String
  queuePosition : Nat
  estimatedWaitTime : Nat
  department : String
  language : String
deriving Repr, DecidableEq

/-- The priority weight table `{ urgent: 3, high: 2, medium: 1, low: 0 }`
applied to `req.escalationInfo?.recommendation?.priority || 'low'`. -/
def prioWeight (req : HandoffRequest) : Nat :=
  let p := match req.escalationInfo.recommendation with
    | some rec => if rec.priority = "" then "low" else rec.priority
    | none => "low"
  if p = "urgent" then 3 else if p = "high" then 2
  else if p = "medium" then 1 else 0

/-- Stable insertion step for the pending-queue sort by priority weight
descending. -/
def insertPrioDesc (x : HandoffRequest) :
    List HandoffRequest → List HandoffRequest
  | [] => [x]
  | y :: ys => if prioWeight y < prioWeight x then x :: y :: ys
               else y :: insertPrioDesc x ys

/-- The `Array.prototype.sort` call of `calculateQueuePosition` (stable,
priority weight descending). -/
def sortPrioDesc (l : List HandoffRequest) : List HandoffRequest :=
  l.foldl (fun acc x => insertPrioDesc x acc) []

/-- Analytics counters of the `ConversationLogger`. -/
structure AnalyticsData where
  totalConversations : Nat
  languageDistribution : List (String × Nat)
  intentDistribution : List (String × Nat)
  handoffRate : ℚ
  satisfactionScores : List ℚ
  commonIssues : List (String × Nat)
deriving Repr, DecidableEq

/-- One message stored in a conversation transcript (`{timestamp, message,
...metadata}`). -/
structure LoggedMessage where
  timestamp : String
  message : String
  language : Option String
  intent : Option String
deriving Repr, DecidableEq

/-- The per-message metadata object given to `logMessage`. -/
structure MsgMetadata where
  language : Option String
  intent : Option String
deriving Repr, DecidableEq

/-- One per-user conversation record. -/
structure Conversation where
  id : String
  startTime : String
  messages : List LoggedMessage
  language : String
  resolved : Bool
deriving Repr, DecidableEq

/-- The `ConversationLogger` state. -/
structure LoggerState where
  conversations : List (String × Conversation)
  analyticsData : AnalyticsData
deriving Repr, DecidableEq

/-- The freshly constructed logger. -/
def LoggerState.empty : LoggerState :=
  { conversations := []
    analyticsData :=
      { totalConversations := 0, languageDistribution := [],
        intentDistribution := [], handoffRate := 0,
        satisfactionScores := [], commonIssues := [] } }

/-- `updateAnalytics(metadata)`: bump the language and intent histograms. -/
def updateAnalytics (a : AnalyticsData) (metadata : MsgMetadata) : AnalyticsData :=
  let a1 := match metadata.language with
    | some lang =>
      let bumped := mapSet a.languageDistribution lang
        (((mapGet a.languageDistribution lang).getD 0) + 1)
      { a with languageDistribution := bumped }
    | none => a
  match metadata.intent with
  | some it =>
    let bumped := mapSet a1.intentDistribution it
      (((mapGet a1.intentDistribution it).getD 0) + 1)
    { a1 with intentDistribution := bumped }
  | none => a1

/-- `logMessage(userId, message, metadata)`; the wall-clock timestamp is
passed in as `now`. -/
def logMessage (st : LoggerState) (userId message : String)
    (metadata : MsgMetadata) (now : String) : LoggerState :=
  let st1 :=
    if (mapGet st.conversations userId).isNone then
      let fresh : Conversation :=
        { id := userId, startTime := now, messages := [],
          language := metadata.language.getD "en", resolved := false }
      let a :=
        { st.analyticsData with
            totalConversations := st.analyticsData.totalConversations + 1 }
      { conversations := mapSet st.conversations userId fresh
        analyticsData := a }
    else st
  let st2 := match mapGet st1.conversations userId with
    | some conv =>
      let entry : LoggedMessage :=
        { timestamp := now, message := message,
          language := metadata.language, intent := metadata.intent }
      let conv2 := { conv with messages := conv.messages ++ [entry] }
      { st1 with conversations := mapSet st1.conversations userId conv2 }
    | none => st1
  { st2 with analyticsData := updateAnalytics st2.analyticsData metadata }

/-- `logHandoffRequest`: fold this handoff into the running handoff rate;
`N` is `totalConversations`.  (For `N = 0` the JS expression is a division
by zero; the claims only concern `N ≥ 1`.) -/
def logHandoffRequest (st : LoggerState) : LoggerState :=
  let n : ℚ := st.analyticsData.totalConversations
  { st with analyticsData :=
      { st.analyticsData with
          handoffRate := (st.analyticsData.handoffRate * (n - 1) + 1) / n } }

/-- The `HumanHandoffManager` instance state: the handoff queue `Map` plus
the embedded `ConversationLogger`. -/
structure HQState where
  handoffQueue : List (String × HandoffRequest)
  logger : LoggerState
deriving Repr, DecidableEq

/-- The freshly constructed manager. -/
def HQState.empty : HQState := ⟨[], LoggerState.empty⟩

/-- `calculateQueuePosition(priority)`: filter the queue to `pending`
requests, sort them by priority weight descending, and return the sorted
array's length plus one.  The `priority` parameter (`priorityArg` here) is
accepted but never read by the source body. -/
def calculateQueuePosition (st : HQState) (_priorityArg : Option String) : Nat :=
  let queueArray :=
    sortPrioDesc (((st.handoffQueue.map (·.2)).filter
      (fun req => req.status == "pending")))
  queueArray.length + 1

/-- `generateHandoffConfirmation(handoffRequest)`: per-language template,
falling back to English. -/
def generateHandoffConfirmation (req : HandoffRequest) : String :=
  let minutes := toString ((req.estimatedWaitTime + 59) / 60)
  let en := "You\x27ve been connected to our support queue. **Queue position**: "
    ++ toString req.queuePosition ++ ". **Estimated wait time**: " ++ minutes
    ++ " minutes. A human agent will assist you shortly. Your reference number is **"
    ++ req.id ++ "**."
  let hi := "आपको हमारी सपोर्ट क्यू से जोड़ दिया गया है। **क्यू में स्थिति**: "
    ++ toString req.queuePosition ++ "। **अनुमानित प्रतीक्षा समय**: " ++ minutes
    ++ " मिनट। एक मानव एजेंट जल्द ही आपकी सहायता करेगा। आपका संदर्भ नंबर **"
    ++ req.id ++ "** है।"
  let mr := "तुम्हाला आमच्या सपोर्ट रांगेत जोडले गेले आहे। **रांगेतील स्थिती**: "
    ++ toString req.queuePosition ++ "। **अंदाजे प्रतीक्षा वेळ**: " ++ minutes
    ++ " मिनिटे। एक मानवी एजेंट लवकरच तुमची मदत करेल। तुमचा संदर्भ क्रमांक **"
    ++ req.id ++ "** आहे।"
  if req.language = "hi" then hi
  else if req.language = "mr" then mr
  else en

/-- The object returned by `initiateHandoff`. -/
structure HandoffOutcome where
  success : Bool
  handoffId : String
  queuePosition : Nat
  estimatedWaitTime : Nat
  confirmationMessage : String
deriving Repr, DecidableEq

/-- `initiateHandoff(userId, context, escalationInfo)`: build the pending
request (its `queuePosition` computed BEFORE the request joins the queue),
add it to the queue, log it (which updates the running handoff rate), and
return the outcome.  The generated id and the ISO timestamp are passed in as
`handoffId` / `timestamp`. -/
def initiateHandoff (st : HQState) (userId : String) (context : List CtxEntry)
    (escalationInfo : Assessment) (handoffId timestamp : String) :
    HQState × HandoffOutcome :=
  let req : HandoffRequest :=
    { id := handoffId, userId := userId, timestamp := timestamp,
      context := context, escalationInfo := escalationInfo,
      status := "pending",
      queuePosition :=
        calculateQueuePosition st (escalationInfo.recommendation.map (·.priority)),
      estimatedWaitTime :=
        (escalationInfo.recommendation.map (·.estimatedWaitTime)).getD 600,
      department := (escalationInfo.recommendation.map (·.department)).getD "general",
      language := ((context.getLast?).bind (·.language)).getD "en" }
  let st1 : HQState :=
    { handoffQueue := mapSet st.handoffQueue handoffId req
      logger := logHandoffRequest st.logger }
  (st1,
   { success := true, handoffId := handoffId,
     queuePosition := req.queuePosition,
     estimatedWaitTime := req.estimatedWaitTime,
     confirmationMessage := generateHandoffConfirmation req })

/-! ## Well-formedness, reachability, and concrete instances used by the
claim theorems -/

/-- Invariant of the multilingual index maintained by construction in JS:
`Map` keys are distinct and every posting `Set` is duplicate-free. -/
def WFIdx (idx : List (String × List String)) : Prop :=
  (idx.map Prod.fst).Nodup ∧ ∀ e ∈ idx, e.2.Nodup

/-- Processor states reachable through the mutating operations of
`DocumentProcessor` (a fresh instance, storing knowledge, indexing a part;
`createMultilingualIndex` and the success path of `ingestDocument` are
compositions of these steps). -/
inductive ReachableDoc : DocState → Prop
  | empty : ReachableDoc DocState.empty
  | store (st : DocState) (kid : String) (pd : ProcessedData) :
      ReachableDoc st → ReachableDoc (storeKnowledge st kid pd)
  | index (st : DocState) (id content title : String) :
      ReachableDoc st → ReachableDoc (addToIndex st id content title)

/-- An escalation assessment carrying only a recommendation of the given
priority, used to drive the queue-position scenario of the spec's
queue-ordering example. -/
def mkPriorityInfo (p d : String) (w : Nat) : Assessment :=
  { shouldEscalate := true, confidence := 1, matchedRule := none,
    signals := ⟨0, 0, 0, 0⟩,
    recommendation := some ⟨p, d, w, "scenario"⟩ }

/-- Queue scenario step 1: a `low`-priority request enters an empty queue. -/
def queueScenario1 : HQState × HandoffOutcome :=
  initiateHandoff HQState.empty "u1" [] (mkPriorityInfo "low" "admin" 720) "h1" "t1"

/-- Queue scenario step 2: an `urgent`-priority request follows. -/
def queueScenario2 : HQState × HandoffOutcome :=
  initiateHandoff queueScenario1.1 "u2" [] (mkPriorityInfo "urgent" "IT" 180) "h2" "t2"

/-- Queue scenario step 3: a `medium`-priority request follows. -/
def queueScenario3 : HQState × HandoffOutcome :=
  initiateHandoff queueScenario2.1 "u3" [] (mkPriorityInfo "medium" "academic" 600) "h3" "t3"

/-- The example message of the spec's escalation walk-through. -/
def portalMessage : String := "This portal is not working, I need help immediately"

/-- Conversation context whose last three stored messages are near-identical
(word overlap `4/5`) to the current message `pay the fees now`. -/
def similarCtx : List CtxEntry :=
  [⟨"first question", none⟩,
   ⟨"pay the fees now please", none⟩,
   ⟨"pay the fees now please", none⟩,
   ⟨"pay the fees now please", none⟩]

/-- Conversation context whose last three stored messages are literally
identical to the current message `pay the fees now`. -/
def identicalCtx : List CtxEntry :=
  [⟨"first question", none⟩,
   ⟨"pay the fees now", none⟩,
   ⟨"pay the fees now", none⟩,
   ⟨"pay the fees now", none⟩]

/-- A processor state with one document part indexed: body
`fee details here`, title `Scholarship Rules`. -/
def scholarshipState : DocState :=
  addToIndex (storeKnowledge DocState.empty "kb1" ⟨"fee details here", [], [], []⟩)
    "kb1_section_0" "fee details here" "Scholarship Rules"

/-- A processor state whose only part has the two-character token `ab` as
its title: too short for `addToIndex` ever to post it. -/
def shortTitleState : DocState :=
  addToIndex DocState.empty "p1" "xyzbody" "ab"

/-- A logger that has recorded exactly one conversation. -/
def oneConversationLogger : LoggerState :=
  logMessage LoggerState.empty "u1" "hello" ⟨some "en", none⟩ "t0"

/-! ## Supporting lemmas -/

theorem insertPrioDesc_length (x : HandoffRequest) (l : List HandoffRequest) :
    (insertPrioDesc x l).length = l.length + 1 := by
  induction l with
  | nil => rfl
  | cons y ys ih =>
    simp only [insertPrioDesc]
    split
    · simp
    · simp [ih]

theorem sortPrioDesc_length (l : List HandoffRequest) :
    (sortPrioDesc l).length = l.length := by
  suffices h : ∀ (l acc : List HandoffRequest),
      (l.foldl (fun a x => insertPrioDesc x a) acc).length = acc.length + l.length by
    simpa using h l []
  intro l
  induction l with
  | nil => intro acc; simp
  | cons x t ih =>
    intro acc
    simp only [List.foldl_cons]
    rw [ih (insertPrioDesc x acc), insertPrioDesc_length]
    simp only [List.length_cons]
    omega

/-- Claim C1 (amended): the queue position assigned at enqueue time is the
count of requests with status `pending` plus one, for every queue state and
request — the pre-count sort by priority weight cannot change the count, so
the assigned position does NOT depend on the requester's priority.  In the
spec's own `{low, urgent, medium}` scenario the urgent request therefore
receives position 2 (not 1) and the medium request position 3. -/
theorem c1_queue_position_ignores_priority :
    (∀ (st : HQState) (userId : String) (context : List CtxEntry)
        (info : Assessment) (hid ts : String),
      ((initiateHandoff st userId context info hid ts).2).queuePosition =
        ((st.handoffQueue.map (·.2)).filter
          (fun req => req.status == "pending")).length + 1) ∧
    queueScenario1.2.queuePosition = 1 ∧
    queueScenario2.2.queuePosition = 2 ∧
    queueScenario3.2.queuePosition = 3 := by
  refine ⟨?_, by decide, by decide, by decide⟩
  intro st userId context info hid ts
  simp only [initiateHandoff, calculateQueuePosition]
  rw [sortPrioDesc_length]

/-- Claim C1, counterexample to the claim as stated: in the spec's scenario
(priorities `low`, `urgent`, `medium` enqueued in that order into an empty
queue) the urgent request's computed `queuePosition` at its own enqueue time
is 2, not the claimed 1. -/
theorem c1_counterexample :
    queueScenario2.2.queuePosition = 2 ∧ queueScenario2.2.queuePosition ≠ 1 := by
  decide

theorem findMatchedRule_first (m : String) :
    ∀ L : List Rule,
      (∃ r ∈ L, r.triggers.any (fun t => containsStr m (jsToLower t)) = true) →
      ∃ pre r post, L = pre ++ r :: post ∧
        r.triggers.any (fun t => containsStr m (jsToLower t)) = true ∧
        (∀ q ∈ pre, q.triggers.any (fun t => containsStr m (jsToLower t)) = false) ∧
        findMatchedRule m L = some r := by
  intro L
  induction L with
  | nil => rintro ⟨r, hr, _⟩; simp at hr
  | cons a rest ih =>
    intro hex
    by_cases ha : a.triggers.any (fun t => containsStr m (jsToLower t)) = true
    · exact ⟨[], a, rest, rfl, ha, by simp, by simp [findMatchedRule, ha]⟩
    · have hex' : ∃ r ∈ rest, r.triggers.any (fun t => containsStr m (jsToLower t)) = true := by
        obtain ⟨r, hr, hmatch⟩ := hex
        rcases List.mem_cons.mp hr with h1 | h2
        · exact absurd (h1 ▸ hmatch) ha
        · exact ⟨r, h2, hmatch⟩
      obtain ⟨pre, r, post, heqL, hmatch, hpre, hfind⟩ := ih hex'
      refine ⟨a :: pre, r, post, by rw [heqL]; rfl, hmatch, ?_, ?_⟩
      · intro q hq
        rcases List.mem_cons.mp hq with h1 | h2
        · subst h1; exact Bool.eq_false_iff.mpr (fun hc => ha hc)
        · exact hpre q h2
      · simp only [findMatchedRule]
        rw [if_neg ha]
        exact hfind

/-- Claim C3 (confirmed): whenever the lower-cased message contains some
trigger phrase of some configured escalation rule, `analyzeEscalationNeed`
reports `shouldEscalate = true` for EVERY conversation context — hence
independently of the complexity/frustration/specificity/urgency counters —
and its `matchedRule` is the first rule in registration order with a
contained trigger, all earlier rules having none (the loop breaks at the
first match). -/
theorem c3_trigger_forces_escalation (message : String) (context : List CtxEntry)
    (h : ∃ r ∈ escalationRules,
      r.triggers.any (fun t => containsStr (jsToLower message) (jsToLower t)) = true) :
    (analyzeEscalationNeed message context).shouldEscalate = true ∧
    ∃ pre r post, escalationRules = pre ++ r :: post ∧
      (analyzeEscalationNeed message context).matchedRule = some r ∧
      r.triggers.any (fun t => containsStr (jsToLower message) (jsToLower t)) = true ∧
      ∀ q ∈ pre,
        q.triggers.any (fun t => containsStr (jsToLower message) (jsToLower t)) = false := by
  obtain ⟨pre, r, post, heqL, hmatch, hpre, hfind⟩ :=
    findMatchedRule_first (jsToLower message) escalationRules h
  constructor
  · have hs : (findMatchedRule (jsToLower message) escalationRules).isSome = true := by
      rw [hfind]; rfl
    show (_ || (findMatchedRule (jsToLower message) escalationRules).isSome) = true
    rw [hs, Bool.or_true]
  · exact ⟨pre, r, post, heqL, hfind, hmatch, hpre⟩

/-- Claim C3 witness: the message `my loan application` contains the trigger
`loan` of the first registered rule, so escalation is forced. -/
theorem c3_witness :
    (analyzeEscalationNeed "my loan application" []).shouldEscalate = true :=
  (c3_trigger_forces_escalation "my loan application" [] (by decide)).1


theorem analyze_signals_eq (m : String) (c : List CtxEntry) :
    (analyzeEscalationNeed m c).signals =
      ⟨countTriggers complexityTriggers (jsToLower m),
       countTriggers frustrationTriggers (jsToLower m) + repetitionBoost m c,
       0, 0⟩ := rfl

theorem analyze_matchedRule_eq (m : String) (c : List CtxEntry) :
    (analyzeEscalationNeed m c).matchedRule =
      findMatchedRule (jsToLower m) escalationRules := rfl

theorem analyze_confidence_eq (m : String) (c : List CtxEntry) :
    (analyzeEscalationNeed m c).confidence =
      min (totalScoreOf (analyzeEscalationNeed m c).signals / 5) 1 := rfl

theorem analyze_shouldEscalate_eq (m : String) (c : List CtxEntry) :
    (analyzeEscalationNeed m c).shouldEscalate =
      (decide (totalScoreOf (analyzeEscalationNeed m c).signals ≥ 2) ||
        (findMatchedRule (jsToLower m) escalationRules).isSome) := rfl

theorem analyze_recommendation_eq (m : String) (c : List CtxEntry) :
    (analyzeEscalationNeed m c).recommendation =
      getEscalationRecommendation (totalScoreOf (analyzeEscalationNeed m c).signals)
        (findMatchedRule (jsToLower m) escalationRules) := rfl

theorem similarity_please_now : calculateSimilarity "pay the fees now please" "pay the fees now" = 0 := by
  have h1 : (listIntersect (jsSplitBsS (jsToLower "pay the fees now please"))
      (jsSplitBsS (jsToLower "pay the fees now"))).length = 0 := by decide
  have h2 : (dedupFirst (jsSplitBsS (jsToLower "pay the fees now please") ++
      jsSplitBsS (jsToLower "pay the fees now"))).length = 2 := by decide
  simp only [calculateSimilarity]
  rw [h1, h2]
  norm_num

theorem similarity_now_now : calculateSimilarity "pay the fees now" "pay the fees now" = 1 := by
  have h1 : (listIntersect (jsSplitBsS (jsToLower "pay the fees now"))
      (jsSplitBsS (jsToLower "pay the fees now"))).length = 1 := by decide
  have h2 : (dedupFirst (jsSplitBsS (jsToLower "pay the fees now") ++
      jsSplitBsS (jsToLower "pay the fees now"))).length = 1 := by decide
  simp only [calculateSimilarity]
  rw [h1, h2]
  norm_num

theorem boost_similarCtx : repetitionBoost "pay the fees now" similarCtx = 0 := by
  norm_num [repetitionBoost, similarCtx, similarity_please_now]

theorem boost_identicalCtx : repetitionBoost "pay the fees now" identicalCtx = 2 := by
  norm_num [repetitionBoost, identicalCtx, similarity_now_now]

/-- Claim C4 (code bug): the spec's repetition signal uses word-overlap
similarity over WHITESPACE-split tokens, but the source's
`calculateSimilarity` splits with the over-escaped regex literal `/\\s+/`
(a literal backslash plus an `s` run), so two distinct whitespace-separated
messages compare as single diverging tokens with similarity `0`.  In the
scenario below each of the three stored messages overlaps the current one in
`4/5` of its words (above the `0.7` threshold, so the spec demands the `+2`
frustration bonus), yet the code computes similarity `0` and adds nothing;
with literally identical stored messages the `+2` bonus (applied once per
analysis call) does fire, confirming the surrounding logic. -/
theorem c4_similarity_split_divergence :
    specSimilarity "pay the fees now please" "pay the fees now" = 4/5 ∧
    ((4 : ℚ)/5 > 7/10) ∧
    calculateSimilarity "pay the fees now please" "pay the fees now" = 0 ∧
    (analyzeEscalationNeed "pay the fees now" similarCtx).signals.frustration = 0 ∧
    (analyzeEscalationNeed "pay the fees now" identicalCtx).signals.frustration = 2 := by
  refine ⟨?_, by norm_num, similarity_please_now, ?_, ?_⟩
  · have h1 : (listIntersect (jsSplitWs (jsToLower "pay the fees now please"))
        (jsSplitWs (jsToLower "pay the fees now"))).length = 4 := by decide
    have h2 : (dedupFirst (jsSplitWs (jsToLower "pay the fees now please") ++
        jsSplitWs (jsToLower "pay the fees now"))).length = 5 := by decide
    simp only [specSimilarity]
    rw [h1, h2]
    norm_num
  · rw [show (analyzeEscalationNeed "pay the fees now" similarCtx).signals.frustration =
        countTriggers frustrationTriggers (jsToLower "pay the fees now") +
          repetitionBoost "pay the fees now" similarCtx from rfl]
    rw [boost_similarCtx]
    decide
  · rw [show (analyzeEscalationNeed "pay the fees now" identicalCtx).signals.frustration =
        countTriggers frustrationTriggers (jsToLower "pay the fees now") +
          repetitionBoost "pay the fees now" identicalCtx from rfl]
    rw [boost_identicalCtx]
    decide

/-- Claim C6, counterexample to the claim as stated: on the message
`This portal is not working, I need help immediately` (empty context) the
analyzer counts only 2 frustration signals, so the claimed conjunction
(escalation, frustration at least 3, matched rule `technical_issues`) fails
— the message contains neither the phrase `help me` nor the verbatim
trigger `portal not working` (it reads `portal is not working`). -/
theorem c6_counterexample :
    ¬ ((analyzeEscalationNeed portalMessage []).shouldEscalate = true ∧
       3 ≤ (analyzeEscalationNeed portalMessage []).signals.frustration ∧
       ((analyzeEscalationNeed portalMessage []).matchedRule.map (·.name)) =
         some "technical_issues") := by
  rintro ⟨-, hB, -⟩
  have hsig : (analyzeEscalationNeed portalMessage []).signals = ⟨0, 2, 0, 0⟩ := by
    decide
  rw [hsig] at hB
  simp at hB

/-- Claim C6 (amended): on the spec's example message the analyzer counts
exactly 2 frustration signals (`not working` and `immediately`; `help me` is
not a substring), the total score is `0.8` (surfaced as confidence
`0.8 / 5 = 4/25`), no rule trigger is contained in the message (in
particular `portal not working` is not, since the message reads `portal is
not working`), and therefore `shouldEscalate = false` with no matched rule
and no recommendation. -/
theorem c6_portal_message_analysis :
    (analyzeEscalationNeed portalMessage []).signals.frustration = 2 ∧
    (analyzeEscalationNeed portalMessage []).signals.complexity = 0 ∧
    (analyzeEscalationNeed portalMessage []).confidence = 4/25 ∧
    (analyzeEscalationNeed portalMessage []).shouldEscalate = false ∧
    (analyzeEscalationNeed portalMessage []).matchedRule = none ∧
    (analyzeEscalationNeed portalMessage []).recommendation = none ∧
    containsStr (jsToLower portalMessage) "not working" = true ∧
    containsStr (jsToLower portalMessage) "immediately" = true ∧
    containsStr (jsToLower portalMessage) "help me" = false ∧
    containsStr (jsToLower portalMessage) "portal not working" = false := by
  have hsig : (analyzeEscalationNeed portalMessage []).signals = ⟨0, 2, 0, 0⟩ := by
    decide
  have hm : findMatchedRule (jsToLower portalMessage) escalationRules = none := by
    decide
  have hscore : totalScoreOf ⟨0, 2, 0, 0⟩ = 4/5 := by
    norm_num [totalScoreOf]
  have hlt : ¬ ((4 : ℚ)/5 ≥ 2) := by norm_num
  refine ⟨by rw [hsig], by rw [hsig], ?_, ?_, ?_, ?_, by decide, by decide, by decide,
    by decide⟩
  · rw [analyze_confidence_eq, hsig, hscore]
    rw [min_def]
    norm_num
  · rw [analyze_shouldEscalate_eq, hsig, hscore, hm, decide_eq_false hlt]
    rfl
  · rw [analyze_matchedRule_eq, hm]
  · rw [analyze_recommendation_eq, hsig, hscore, hm]
    simp only [getEscalationRecommendation]
    norm_num

/-- Claim C8 (confirmed): `logHandoffRequest` rewrites the running handoff
rate to `(oldRate * (N - 1) + 1) / N` with `N` the number of conversations
recorded so far, and touches nothing else in the logger: the conversation
transcripts and every other analytics counter are returned unchanged.
(`N ≥ 1` keeps the JS expression away from its division by zero.) -/
theorem c8_handoff_rate_update (st : LoggerState)
    (h : 1 ≤ st.analyticsData.totalConversations) :
    (logHandoffRequest st).analyticsData.handoffRate =
      (st.analyticsData.handoffRate *
          ((st.analyticsData.totalConversations : ℚ) - 1) + 1) /
        (st.analyticsData.totalConversations : ℚ) ∧
    (logHandoffRequest st).conversations = st.conversations ∧
    (logHandoffRequest st).analyticsData.totalConversations =
      st.analyticsData.totalConversations ∧
    (logHandoffRequest st).analyticsData.languageDistribution =
      st.analyticsData.languageDistribution ∧
    (logHandoffRequest st).analyticsData.intentDistribution =
      st.analyticsData.intentDistribution ∧
    (logHandoffRequest st).analyticsData.satisfactionScores =
      st.analyticsData.satisfactionScores ∧
    (logHandoffRequest st).analyticsData.commonIssues =
      st.analyticsData.commonIssues :=
  ⟨rfl, rfl, rfl, rfl, rfl, rfl, rfl⟩

/-- Claim C8 witness: after one recorded conversation (`N = 1`), a handoff
event sets the running rate by the incremental formula. -/
theorem c8_witness :
    (logHandoffRequest oneConversationLogger).analyticsData.handoffRate =
      (oneConversationLogger.analyticsData.handoffRate *
          ((oneConversationLogger.analyticsData.totalConversations : ℚ) - 1) + 1) /
        (oneConversationLogger.analyticsData.totalConversations : ℚ) :=
  (c8_handoff_rate_update oneConversationLogger (by decide)).1

/-- Claim C9 (confirmed): `doc` is in the supported-format list, so
`isValidFormat` accepts any `.doc` file, yet `ingestDocument` on such a file
always fails — `extractDocContent` throws unconditionally and the error is
re-thrown wrapped — and the knowledge store and index are left untouched
(the source mutates them only after extraction succeeds). -/
theorem c9_doc_ingest_always_fails (pdfX : JsFile → Except String String)
    (process : String → ProcessedData) (kid : String) (st : DocState)
    (file : JsFile) (h : fileExt file.name = "doc") :
    isValidFormat file = true ∧
    (ingestDocument pdfX process kid st file).1 = st ∧
    (ingestDocument pdfX process kid st file).2 =
      .error "Failed to process document: DOC format not supported. Please convert to DOCX, PDF, or TXT format." := by
  have hv : isValidFormat file = true := by
    simp [isValidFormat, h, supportedFormats]
  have he : extractContent pdfX file =
      .error "DOC format not supported. Please convert to DOCX, PDF, or TXT format." := by
    simp [extractContent, h]
  refine ⟨hv, ?_, ?_⟩ <;> simp [ingestDocument, hv, he]

/-- Claim C9 witness: ingesting a concrete `.doc` file into the empty
processor fails with the wrapped DOC error. -/
theorem c9_witness :
    (ingestDocument (fun _ => .error "pdf unavailable")
        (fun c => ⟨c, [], [], []⟩) "kb1" DocState.empty ⟨"thesis.doc", "zzz"⟩).2 =
      .error "Failed to process document: DOC format not supported. Please convert to DOCX, PDF, or TXT format." :=
  (c9_doc_ingest_always_fails (fun _ => .error "pdf unavailable")
    (fun c => ⟨c, [], [], []⟩) "kb1" DocState.empty ⟨"thesis.doc", "zzz"⟩ (by decide)).2.2

theorem detectGo_char (c : String) :
    ∀ (ps : List (String × ScriptRange)) (mx : Nat) (d : String),
      ((∀ p ∈ ps, countMatches c p.2 ≤ mx) ∧ detectGo c ps mx d = d) ∨
      (∃ pre p post, ps = pre ++ p :: post ∧ detectGo c ps mx d = p.1 ∧
        mx < countMatches c p.2 ∧
        (∀ q ∈ pre, countMatches c q.2 < countMatches c p.2) ∧
        (∀ q ∈ post, countMatches c q.2 ≤ countMatches c p.2)) := by
  intro ps
  induction ps with
  | nil => intro mx d; left; exact ⟨by simp, rfl⟩
  | cons hd rest ih =>
    intro mx d
    obtain ⟨lang, r⟩ := hd
    by_cases hlt : mx < countMatches c r
    · have hstep : detectGo c ((lang, r) :: rest) mx d =
          detectGo c rest (countMatches c r) lang := by
        simp [detectGo, hlt]
      rcases ih (countMatches c r) lang with ⟨hall, heq⟩ | ⟨pre, p, post, hps, heq, hmx, hpre, hpost⟩
      · right
        exact ⟨[], (lang, r), rest, rfl, by rw [hstep, heq], hlt, by simp, hall⟩
      · right
        refine ⟨(lang, r) :: pre, p, post, by rw [hps]; rfl, by rw [hstep, heq],
          lt_trans hlt hmx, ?_, hpost⟩
        intro q hq
        rcases List.mem_cons.mp hq with h1 | h2
        · rw [h1]; exact hmx
        · exact hpre q h2
    · have hstep : detectGo c ((lang, r) :: rest) mx d = detectGo c rest mx d := by
        simp [detectGo, hlt]
      rcases ih mx d with ⟨hall, heq⟩ | ⟨pre, p, post, hps, heq, hmx, hpre, hpost⟩
      · left
        refine ⟨?_, by rw [hstep, heq]⟩
        intro p hp
        rcases List.mem_cons.mp hp with h1 | h2
        · rw [h1]; exact Nat.le_of_not_lt hlt
        · exact hall p h2
      · right
        refine ⟨(lang, r) :: pre, p, post, by rw [hps]; rfl, by rw [hstep, heq], hmx, ?_,
          hpost⟩
        intro q hq
        rcases List.mem_cons.mp hq with h1 | h2
        · rw [h1]
          exact lt_of_le_of_lt (Nat.le_of_not_lt hlt) hmx
        · exact hpre q h2

theorem detectGo_mem (c : String) :
    ∀ (ps : List (String × ScriptRange)) (mx : Nat) (d : String),
      detectGo c ps mx d = d ∨ detectGo c ps mx d ∈ ps.map Prod.fst := by
  intro ps
  induction ps with
  | nil => intro mx d; left; rfl
  | cons hd rest ih =>
    intro mx d
    obtain ⟨lang, r⟩ := hd
    by_cases hlt : mx < countMatches c r
    · have hstep : detectGo c ((lang, r) :: rest) mx d =
          detectGo c rest (countMatches c r) lang := by
        simp [detectGo, hlt]
      rcases ih (countMatches c r) lang with heq | hmem
      · right; rw [hstep, heq]; simp
      · right; rw [hstep]; simp only [List.map_cons, List.mem_cons]; right; exact hmem
    · have hstep : detectGo c ((lang, r) :: rest) mx d = detectGo c rest mx d := by
        simp [detectGo, hlt]
      rcases ih mx d with heq | hmem
      · left; rw [hstep, heq]
      · right; rw [hstep]; simp only [List.map_cons, List.mem_cons]; right; exact hmem

/-- Claim C5 (amended): the detector counts code-point matches against a
fixed Unicode block range per language and the language with strictly the
most matches wins; zero matches for every pattern yields the baseline `en`;
but a TIE at the maximum is broken in favour of the EARLIEST language in the
fixed table order `hi, mr, gu, bn, ta, te, kn` (a later language replaces
the running winner only on a strictly greater count), not by defaulting to
`en`: for EVERY input, either every pattern counts zero matches (and only
then is the answer the default `en`), or the answer is the first language
attaining the positive maximum, every earlier language counting strictly
fewer and every later one at most as many — so a tied maximum always goes to
the earliest tied language, never to `en`. -/
theorem c5_first_language_at_max_wins (content : String) :
    ((∀ p ∈ languagePatterns, countMatches content p.2 = 0) →
      detectPrimaryLanguage content = "en") ∧
    ((detectPrimaryLanguage content = "en" ∧
        ∀ p ∈ languagePatterns, countMatches content p.2 = 0) ∨
      ∃ pre p post, languagePatterns = pre ++ p :: post ∧
        detectPrimaryLanguage content = p.1 ∧
        0 < countMatches content p.2 ∧
        (∀ q ∈ pre, countMatches content q.2 < countMatches content p.2) ∧
        (∀ q ∈ post, countMatches content q.2 ≤ countMatches content p.2)) := by
  constructor
  · intro h0
    rcases detectGo_char content languagePatterns 0 "en" with ⟨-, heq⟩ |
      ⟨pre, p, post, hps, -, hmx, -, -⟩
    · exact heq
    · exfalso
      have hp : p ∈ languagePatterns := by
        rw [hps]; exact List.mem_append_right pre (List.mem_cons_self p post)
      rw [h0 p hp] at hmx
      exact Nat.not_lt_zero 0 hmx
  · rcases detectGo_char content languagePatterns 0 "en" with ⟨hall, heq⟩ |
      ⟨pre, p, post, hps, heq, hmx, hpre, hpost⟩
    · left
      exact ⟨heq, fun p hp => Nat.le_zero.mp (hall p hp)⟩
    · right; exact ⟨pre, p, post, hps, heq, hmx, hpre, hpost⟩

/-- Claim C5 witness: text with no script matches resolves to the baseline
language. -/
theorem c5_witness : detectPrimaryLanguage "hello" = "en" :=
  (c5_first_language_at_max_wins "hello").1 (by decide)

/-- Claim C5, counterexample to the claim as stated: one Gujarati and one
Bengali code point tie at the maximum match count 1, yet the detector
returns `gu` (the earlier language in table order), not the claimed default
`en`. -/
theorem c5_counterexample :
    countMatches "ઁঅ" ⟨0x0A80, 0x0AFF⟩ = 1 ∧
    countMatches "ઁঅ" ⟨0x0980, 0x09FF⟩ = 1 ∧
    detectPrimaryLanguage "ઁঅ" = "gu" ∧
    detectPrimaryLanguage "ઁঅ" ≠ "en" := by
  decide

/-- Claim C10 (confirmed): `detectPrimaryLanguage` never answers `mr`:
Hindi and Marathi share the identical Devanagari block, the table is scanned
with Hindi first, and a later language replaces the running winner only on a
strictly greater count, so the Marathi entry can never win.  Text whose
matches are exclusively Devanagari resolves to `hi`, and text with no
script matches at all resolves to `en`. -/
theorem c10_detector_never_marathi (content : String) :
    detectPrimaryLanguage content ≠ "mr" ∧
    (0 < countMatches content devanagariRange →
      (∀ p ∈ languagePatterns, p.2 ≠ devanagariRange → countMatches content p.2 = 0) →
      detectPrimaryLanguage content = "hi") ∧
    ((∀ p ∈ languagePatterns, countMatches content p.2 = 0) →
      detectPrimaryLanguage content = "en") := by
  refine ⟨?_, ?_, ?_⟩
  · by_cases h : 0 < countMatches content devanagariRange
    · have hstep : detectPrimaryLanguage content =
          detectGo content [("gu", ⟨0x0A80, 0x0AFF⟩), ("bn", ⟨0x0980, 0x09FF⟩),
            ("ta", ⟨0x0B80, 0x0BFF⟩), ("te", ⟨0x0C00, 0x0C7F⟩), ("kn", ⟨0x0C80, 0x0CFF⟩)]
            (countMatches content devanagariRange) "hi" := by
        simp [detectPrimaryLanguage, languagePatterns, detectGo, h, lt_self_iff_false]
      rw [hstep]
      rcases detectGo_mem content
          [("gu", ⟨0x0A80, 0x0AFF⟩), ("bn", ⟨0x0980, 0x09FF⟩), ("ta", ⟨0x0B80, 0x0BFF⟩),
           ("te", ⟨0x0C00, 0x0C7F⟩), ("kn", ⟨0x0C80, 0x0CFF⟩)]
          (countMatches content devanagariRange) "hi" with heq | hmem
      · rw [heq]; decide
      · intro hcontra
        rw [hcontra] at hmem
        simp at hmem
    · have hstep : detectPrimaryLanguage content =
          detectGo content [("gu", ⟨0x0A80, 0x0AFF⟩), ("bn", ⟨0x0980, 0x09FF⟩),
            ("ta", ⟨0x0B80, 0x0BFF⟩), ("te", ⟨0x0C00, 0x0C7F⟩), ("kn", ⟨0x0C80, 0x0CFF⟩)]
            0 "en" := by
        simp [detectPrimaryLanguage, languagePatterns, detectGo, h]
      rw [hstep]
      rcases detectGo_mem content
          [("gu", ⟨0x0A80, 0x0AFF⟩), ("bn", ⟨0x0980, 0x09FF⟩), ("ta", ⟨0x0B80, 0x0BFF⟩),
           ("te", ⟨0x0C00, 0x0C7F⟩), ("kn", ⟨0x0C80, 0x0CFF⟩)]
          0 "en" with heq | hmem
      · rw [heq]; decide
      · intro hcontra
        rw [hcontra] at hmem
        simp at hmem
  · intro hdev hzero
    have hgu : countMatches content ⟨0x0A80, 0x0AFF⟩ = 0 :=
      hzero ("gu", ⟨0x0A80, 0x0AFF⟩) (by simp [languagePatterns]) (by decide)
    have hbn : countMatches content ⟨0x0980, 0x09FF⟩ = 0 :=
      hzero ("bn", ⟨0x0980, 0x09FF⟩) (by simp [languagePatterns]) (by decide)
    have hta : countMatches content ⟨0x0B80, 0x0BFF⟩ = 0 :=
      hzero ("ta", ⟨0x0B80, 0x0BFF⟩) (by simp [languagePatterns]) (by decide)
    have hte : countMatches content ⟨0x0C00, 0x0C7F⟩ = 0 :=
      hzero ("te", ⟨0x0C00, 0x0C7F⟩) (by simp [languagePatterns]) (by decide)
    have hkn : countMatches content ⟨0x0C80, 0x0CFF⟩ = 0 :=
      hzero ("kn", ⟨0x0C80, 0x0CFF⟩) (by simp [languagePatterns]) (by decide)
    simp [detectPrimaryLanguage, languagePatterns, detectGo, hdev, hgu, hbn, hta, hte,
      hkn, lt_self_iff_false]
  · intro h0
    rcases detectGo_char content languagePatterns 0 "en" with ⟨-, heq⟩ |
      ⟨pre, p, post, hps, -, hmx, -, -⟩
    · exact heq
    · exfalso
      have hp : p ∈ languagePatterns := by
        rw [hps]; exact List.mem_append_right pre (List.mem_cons_self p post)
      rw [h0 p hp] at hmx
      exact Nat.not_lt_zero 0 hmx

/-- Claim C10 witness: a concrete Devanagari string resolves to `hi`. -/
theorem c10_witness : detectPrimaryLanguage "अआ" = "hi" :=
  (c10_detector_never_marathi "अआ").2.1 (by decide) (by decide)


theorem mapGet_cons (e : String × α) (t : List (String × α)) (k : String) :
    mapGet (e :: t) k = if e.1 = k then some e.2 else mapGet t k := by
  by_cases h : e.1 = k
  · simp [mapGet, List.find?, h]
  · have hbeq : (e.1 == k) = false := by simp [h]
    simp [mapGet, List.find?, hbeq, h]

theorem mapGet_eq_none_iff (m : List (String × α)) (k : String) :
    mapGet m k = none ↔ k ∉ m.map Prod.fst := by
  induction m with
  | nil => simp [mapGet]
  | cons e t ih =>
    rw [mapGet_cons]
    by_cases h : e.1 = k
    · simp [h]
    · rw [if_neg h, ih]
      simp only [List.map_cons, List.mem_cons]
      constructor
      · intro hk hc
        rcases hc with h1 | h2
        · exact h h1.symm
        · exact hk h2
      · intro hk hc
        exact hk (Or.inr hc)

theorem mapGet_eq_some_of_mem (m : List (String × α)) (k : String) (v : α)
    (hnd : (m.map Prod.fst).Nodup) (hmem : (k, v) ∈ m) : mapGet m k = some v := by
  induction m with
  | nil => simp at hmem
  | cons e t ih =>
    rw [mapGet_cons]
    rcases List.mem_cons.mp hmem with h1 | h2
    · rw [← h1]
      simp
    · have hk : k ∈ t.map Prod.fst := List.mem_map.mpr ⟨(k, v), h2, rfl⟩
      have hne : e.1 ≠ k := by
        intro hc
        simp only [List.map_cons, List.nodup_cons] at hnd
        exact hnd.1 (hc ▸ hk)
      rw [if_neg hne]
      exact ih (by simp only [List.map_cons, List.nodup_cons] at hnd; exact hnd.2) h2

theorem mem_of_mapGet_eq_some (m : List (String × α)) (k : String) (v : α)
    (h : mapGet m k = some v) : (k, v) ∈ m := by
  induction m with
  | nil => simp [mapGet] at h
  | cons e t ih =>
    rw [mapGet_cons] at h
    by_cases he : e.1 = k
    · rw [if_pos he] at h
      cases h
      exact List.mem_cons.mpr (Or.inl (by rw [← he]))
    · rw [if_neg he] at h
      exact List.mem_cons.mpr (Or.inr (ih h))

theorem mapSet_append_of_not_mem (m : List (String × α)) (k : String) (v : α)
    (h : k ∉ m.map Prod.fst) : mapSet m k v = m ++ [(k, v)] := by
  have hany : m.any (fun e => e.1 == k) = false := by
    rw [Bool.eq_false_iff]
    intro hc
    obtain ⟨e, hmem, heq⟩ := List.any_eq_true.mp hc
    exact h (List.mem_map.mpr ⟨e, hmem, by simpa using heq⟩)
  simp [mapSet, hany]

theorem keys_map_pair (T : List String) (c : Nat) :
    (T.map (fun id => (id, c))).map Prod.fst = T := by
  induction T with
  | nil => rfl
  | cons a t ih => simp only [List.map_cons, ih]

theorem score_fold_map (S : List String) :
    ∀ T : List String, (T ++ S).Nodup →
      S.foldl (fun acc id => mapSet acc id (((mapGet acc id).getD 0) + 3))
        (T.map (fun id => (id, 3))) = (T ++ S).map (fun id => (id, 3)) := by
  induction S with
  | nil => intro T _; simp
  | cons s S' ih =>
    intro T h
    have hs : s ∉ T := by
      intro hc
      exact (List.disjoint_of_nodup_append h) hc (List.mem_cons_self s S')
    have hget : mapGet (T.map (fun id => (id, 3))) s = none := by
      rw [mapGet_eq_none_iff, keys_map_pair]
      exact hs
    have hstep :
        mapSet (T.map (fun id => (id, 3))) s
          (((mapGet (T.map (fun id => (id, 3))) s).getD 0) + 3) =
          (T ++ [s]).map (fun id => (id, 3)) := by
      rw [hget, mapSet_append_of_not_mem _ _ _ (by rw [keys_map_pair]; exact hs)]
      simp
    simp only [List.foldl_cons]
    rw [hstep, ih (T ++ [s]) (by simpa using h)]
    simp

theorem insertScoreDesc_const (x : String × Nat) (l : List (String × Nat))
    (h : ∀ y ∈ l, y.2 = x.2) : insertScoreDesc x l = l ++ [x] := by
  induction l with
  | nil => rfl
  | cons y ys ih =>
    have hy : y.2 = x.2 := h y (List.mem_cons_self y ys)
    simp only [insertScoreDesc]
    rw [if_neg (by rw [hy]; exact lt_irrefl x.2)]
    rw [ih (fun z hz => h z (List.mem_cons_of_mem y hz))]
    rfl

theorem sortScoreDesc_const (c : Nat) (l : List (String × Nat))
    (h : ∀ y ∈ l, y.2 = c) : sortScoreDesc l = l := by
  suffices haux : ∀ (l acc : List (String × Nat)), (∀ y ∈ acc ++ l, y.2 = c) →
      l.foldl (fun a x => insertScoreDesc x a) acc = acc ++ l by
    simpa using haux l [] (by simpa using h)
  intro l
  induction l with
  | nil => intro acc _; simp
  | cons x t ih =>
    intro acc hall
    have hx : x.2 = c := hall x (by simp)
    have hacc : ∀ y ∈ acc, y.2 = x.2 := by
      intro y hy
      rw [hx]
      exact hall y (List.mem_append_left _ hy)
    simp only [List.foldl_cons]
    rw [insertScoreDesc_const x acc hacc, ih (acc ++ [x]) (by
      intro y hy
      apply hall
      simp only [List.append_assoc, List.singleton_append] at hy
      exact hy)]
    simp

/-- Claim C2 (amended): for a query that tokenizes to the single token `w`,
if the body table has no posting for `w` and the title table posts
`title_w` to exactly the parts `S` (the indexer never posts tokens of
length ≤ 2, so `w` must be at least 3 characters long to reach the table),
and the limit is at least `|S|`, then `searchKnowledge` returns exactly the
parts `S`, each with score `3 ≥ 3`, and no part lacking the token appears in
the results at all — in particular every part with the token ranks above
every part without it. -/
theorem c2_title_only_token_results (st : DocState) (query w : String)
    (S : List String) (limit : Nat)
    (htok : jsSplitWs (jsToLower query) = [w])
    (hbody : mapGet st.multilingualIndex w = none)
    (htitle : mapGet st.multilingualIndex ("title_" ++ w) = some S)
    (hnd : S.Nodup)
    (hlim : S.length ≤ limit) :
    searchKnowledge st query limit = S.map (fun id => (id, 3)) ∧
    (∀ r ∈ searchKnowledge st query limit, r.1 ∈ S ∧ r.2 = 3 ∧ 3 ≤ r.2) ∧
    (∀ id, id ∉ S → ∀ r ∈ searchKnowledge st query limit, r.1 ≠ id) := by
  have hsearch : searchKnowledge st query limit = S.map (fun id => (id, 3)) := by
    unfold searchKnowledge searchIdx
    rw [htok]
    simp only [List.foldl_cons, List.foldl_nil]
    have hsw : scoreWord st.multilingualIndex [] w = S.map (fun id => (id, 3)) := by
      simp only [scoreWord, hbody, htitle]
      have hfold := score_fold_map S [] (by simpa using hnd)
      simpa using hfold
    rw [hsw]
    rw [sortScoreDesc_const 3 _ (by
      intro y hy
      obtain ⟨id, hid, rfl⟩ := List.mem_map.mp hy
      rfl)]
    apply List.take_of_length_le
    simpa using hlim
  refine ⟨hsearch, ?_, ?_⟩
  · intro r hr
    rw [hsearch] at hr
    obtain ⟨id, hid, rfl⟩ := List.mem_map.mp hr
    exact ⟨hid, rfl, le_refl 3⟩
  · intro id hid r hr
    rw [hsearch] at hr
    obtain ⟨id2, hid2, rfl⟩ := List.mem_map.mp hr
    intro hc
    exact hid (hc ▸ hid2)

/-- Claim C2 witness: with one part indexed under body `fee details here`
and title `Scholarship Rules`, the single-token query `scholarship` (a
title-only token) returns exactly that part with score 3. -/
theorem c2_witness :
    searchKnowledge scholarshipState "scholarship" 10 = [("kb1_section_0", 3)] :=
  (c2_title_only_token_results scholarshipState "scholarship" "scholarship"
    ["kb1_section_0"] 10 (by decide) (by decide) (by decide) (by decide)
    (by decide)).1

/-- Claim C2, counterexample to the claim as stated: the token `ab` occurs
only in the title of the sole indexed part, yet the search returns nothing —
`addToIndex` discards tokens of length ≤ 2, so the claimed `score ≥ 3`
result set is empty. -/
theorem c2_counterexample :
    ¬ ∃ r ∈ searchKnowledge shortTitleState "ab" 10, r.1 = "p1" ∧ 3 ≤ r.2 := by
  decide

theorem insertNumAsc_perm (x : String × α) (l : List (String × α)) :
    (insertNumAsc x l).Perm (x :: l) := by
  induction l with
  | nil => exact List.Perm.refl _
  | cons y ys ih =>
    simp only [insertNumAsc]
    split
    · exact List.Perm.refl _
    · exact (ih.cons y).trans (List.Perm.swap x y ys)

theorem sortNumAsc_perm (l : List (String × α)) : (sortNumAsc l).Perm l := by
  suffices haux : ∀ (l acc : List (String × α)),
      (l.foldl (fun a x => insertNumAsc x a) acc).Perm (acc ++ l) by
    simpa using haux l []
  intro l
  induction l with
  | nil => intro acc; simp
  | cons x t ih =>
    intro acc
    simp only [List.foldl_cons]
    refine (ih (insertNumAsc x acc)).trans ?_
    refine (List.Perm.append_right t (insertNumAsc_perm x acc)).trans ?_
    exact List.perm_middle.symm

theorem jsObjFromMap_perm (l : List (String × α)) : (jsObjFromMap l).Perm l := by
  unfold jsObjFromMap
  refine (List.Perm.append_right _ (sortNumAsc_perm _)).trans ?_
  exact List.filter_append_perm _ l

theorem mapGet_eq_of_perm (m m' : List (String × α)) (hperm : m.Perm m')
    (hnd : (m.map Prod.fst).Nodup) (k : String) : mapGet m k = mapGet m' k := by
  have hnd' : (m'.map Prod.fst).Nodup := ((hperm.map Prod.fst).nodup_iff).mp hnd
  cases h : mapGet m k with
  | none =>
    symm
    rw [mapGet_eq_none_iff] at h ⊢
    intro hc
    exact h (((hperm.map Prod.fst).mem_iff).mpr hc)
  | some v =>
    have hm := mem_of_mapGet_eq_some m k v h
    exact (mapGet_eq_some_of_mem m' k v hnd' (hperm.mem_iff.mp hm)).symm

theorem dedupFirst_eq_self (l : List String) (h : l.Nodup) : dedupFirst l = l := by
  suffices haux : ∀ (l acc : List String), (acc ++ l).Nodup →
      l.foldl (fun acc x => if acc.contains x then acc else acc ++ [x]) acc = acc ++ l by
    simpa [dedupFirst] using haux l [] (by simpa using h)
  intro l
  induction l with
  | nil => intro acc _; simp
  | cons x t ih =>
    intro acc hnd
    have hx : x ∉ acc := fun hc =>
      (List.disjoint_of_nodup_append hnd) hc (List.mem_cons_self x t)
    have hcont : acc.contains x = false := by
      rw [Bool.eq_false_iff]
      intro hc
      exact hx (by simpa using hc)
    simp only [List.foldl_cons, hcont, Bool.false_eq_true, if_false]
    rw [ih (acc ++ [x]) (by simpa using hnd)]
    simp

theorem map_fst_overwrite (m : List (String × α)) (k : String) (v : α) :
    (m.map (fun e => if e.1 == k then (k, v) else e)).map Prod.fst =
      m.map Prod.fst := by
  induction m with
  | nil => rfl
  | cons e t ih =>
    simp only [List.map_cons, ih]
    congr 1
    by_cases he : e.1 = k
    · simp [he]
    · simp [he]

theorem mapSet_keys_of_any (m : List (String × α)) (k : String) (v : α)
    (h : m.any (fun e => e.1 == k) = true) :
    (mapSet m k v).map Prod.fst = m.map Prod.fst := by
  rw [mapSet, if_pos h]
  exact map_fst_overwrite m k v

theorem mem_mapSet (m : List (String × α)) (k : String) (v : α) (e : String × α)
    (h : e ∈ mapSet m k v) : e = (k, v) ∨ e ∈ m := by
  simp only [mapSet] at h
  split at h
  · obtain ⟨e0, hmem, heq⟩ := List.mem_map.mp h
    by_cases h0 : e0.1 = k
    · left; rw [← heq]; simp [h0]
    · right
      rw [← heq, if_neg (by simp [h0])]
      exact hmem
  · rcases List.mem_append.mp h with h1 | h2
    · right; exact h1
    · left; simpa using h2

theorem nodup_keys_mapSet (m : List (String × α)) (k : String) (v : α)
    (hnd : (m.map Prod.fst).Nodup) : ((mapSet m k v).map Prod.fst).Nodup := by
  by_cases hany : m.any (fun e => e.1 == k) = true
  · rw [mapSet_keys_of_any m k v hany]
    exact hnd
  · have hnotmem : k ∉ m.map Prod.fst := by
      intro hc
      apply hany
      obtain ⟨e, hmem, heq⟩ := List.mem_map.mp hc
      exact List.any_eq_true.mpr ⟨e, hmem, by simp [heq]⟩
    rw [mapSet, if_neg hany]
    simp only [List.map_append]
    rw [List.nodup_append]
    exact ⟨hnd, List.nodup_singleton _, by simpa using hnotmem⟩

theorem setAdd_nodup (s : List String) (x : String) (h : s.Nodup) :
    (setAdd s x).Nodup := by
  by_cases hc : s.contains x = true
  · rw [setAdd, if_pos hc]
    exact h
  · have hx : x ∉ s := fun hm => hc (by simpa using hm)
    rw [setAdd, if_neg hc]
    rw [List.nodup_append]
    exact ⟨h, List.nodup_singleton _, by simpa using hx⟩

theorem WFIdx_addStep (idx : List (String × List String)) (k id : String)
    (h : WFIdx idx) :
    WFIdx (mapSet idx k (setAdd ((mapGet idx k).getD []) id)) := by
  obtain ⟨hkeys, hvals⟩ := h
  have holdnd : ((mapGet idx k).getD []).Nodup := by
    cases hget : mapGet idx k with
    | none => simp
    | some s =>
      have := mem_of_mapGet_eq_some idx k s hget
      simpa using hvals (k, s) this
  refine ⟨nodup_keys_mapSet idx k _ hkeys, ?_⟩
  intro e he
  rcases mem_mapSet idx k _ e he with h1 | h2
  · rw [h1]
    exact setAdd_nodup _ _ holdnd
  · exact hvals e h2

theorem foldl_WFIdx {β : Type} (f : List (String × List String) → β → List (String × List String))
    (hf : ∀ idx b, WFIdx idx → WFIdx (f idx b)) :
    ∀ (bs : List β) (idx : List (String × List String)), WFIdx idx → WFIdx (bs.foldl f idx) := by
  intro bs
  induction bs with
  | nil => intro idx h; exact h
  | cons b t ih =>
    intro idx h
    simp only [List.foldl_cons]
    exact ih (f idx b) (hf idx b h)

theorem addToIndex_WF (st : DocState) (id content title : String)
    (h : WFIdx st.multilingualIndex) :
    WFIdx (addToIndex st id content title).multilingualIndex := by
  have hstep1 : ∀ (idx : List (String × List String)) (w : String), WFIdx idx →
      WFIdx (if w.length > 2 then
        mapSet idx w (setAdd ((mapGet idx w).getD []) id) else idx) := by
    intro idx w hw
    split
    · exact WFIdx_addStep idx w id hw
    · exact hw
  have hstep2 : ∀ (idx : List (String × List String)) (w : String), WFIdx idx →
      WFIdx (if w.length > 2 then
        mapSet idx ("title_" ++ w)
          (setAdd ((mapGet idx ("title_" ++ w)).getD []) id) else idx) := by
    intro idx w hw
    split
    · exact WFIdx_addStep idx ("title_" ++ w) id hw
    · exact hw
  show WFIdx (if title ≠ "" then
      (jsSplitWs (jsToLower title)).foldl
        (fun idx w => if w.length > 2 then
          mapSet idx ("title_" ++ w)
            (setAdd ((mapGet idx ("title_" ++ w)).getD []) id) else idx)
        ((jsSplitWs (jsToLower content)).foldl
          (fun idx w => if w.length > 2 then
            mapSet idx w (setAdd ((mapGet idx w).getD []) id) else idx)
          st.multilingualIndex)
    else
      (jsSplitWs (jsToLower content)).foldl
        (fun idx w => if w.length > 2 then
          mapSet idx w (setAdd ((mapGet idx w).getD []) id) else idx)
        st.multilingualIndex)
  split
  · exact foldl_WFIdx _ hstep2 _ _ (foldl_WFIdx _ hstep1 _ _ h)
  · exact foldl_WFIdx _ hstep1 _ _ h

theorem reachable_WF (st : DocState) (h : ReachableDoc st) :
    WFIdx st.multilingualIndex := by
  induction h with
  | empty => exact ⟨List.nodup_nil, fun e he => absurd he (List.not_mem_nil e)⟩
  | store st kid pd _ ih => exact ih
  | index st id content title _ ih => exact addToIndex_WF st id content title ih

theorem searchIdx_congr (idx1 idx2 : List (String × List String))
    (h : ∀ k, mapGet idx1 k = mapGet idx2 k) (query : String) (limit : Nat) :
    searchIdx idx1 query limit = searchIdx idx2 query limit := by
  unfold searchIdx
  have hfold : ∀ (ws : List String) (m : List (String × Nat)),
      ws.foldl (scoreWord idx1) m = ws.foldl (scoreWord idx2) m := by
    intro ws
    induction ws with
    | nil => intro m; rfl
    | cons w t ih =>
      intro m
      simp only [List.foldl_cons]
      rw [show scoreWord idx1 m w = scoreWord idx2 m w from by
        simp only [scoreWord, h w, h ("title_" ++ w)]]
      exact ih _
  exact congrArg (fun l => List.take limit (sortScoreDesc l))
    (hfold (jsSplitWs (jsToLower query)) [])

/-- Claim C7 (confirmed): for every reachable processor state, exporting the
knowledge base and importing the export into a fresh instance reproduces
identical `searchKnowledge` results — same part ids, same scores, same order
— for every query and limit.  Export re-keys both maps as plain JS objects
(canonical array-index keys get enumerated first), but search consults the
index only by key lookup, key order is irrelevant to lookups in a
duplicate-key-free map, and re-importing posting arrays through `new Set`
leaves the duplicate-free postings untouched. -/
theorem c7_export_import_roundtrip (st : DocState) (h : ReachableDoc st)
    (now query : String) (limit : Nat) :
    searchKnowledge (importKnowledgeBase (exportKnowledgeBase st now)) query limit =
      searchKnowledge st query limit := by
  obtain ⟨hkeys, hvals⟩ := reachable_WF st h
  have hidx : (importKnowledgeBase (exportKnowledgeBase st now)).multilingualIndex =
      jsObjFromMap st.multilingualIndex := by
    show (jsObjFromMap st.multilingualIndex).map (fun e => (e.1, dedupFirst e.2)) =
      jsObjFromMap st.multilingualIndex
    have hpt : ∀ e ∈ jsObjFromMap st.multilingualIndex,
        (fun e => (e.1, dedupFirst e.2)) e = id e := by
      intro e he
      have hmem : e ∈ st.multilingualIndex :=
        (jsObjFromMap_perm st.multilingualIndex).mem_iff.mp he
      show (e.1, dedupFirst e.2) = e
      rw [dedupFirst_eq_self e.2 (hvals e hmem)]
    rw [List.map_congr_left hpt, List.map_id]
  have hlookup : ∀ k, mapGet (jsObjFromMap st.multilingualIndex) k =
      mapGet st.multilingualIndex k := by
    intro k
    refine mapGet_eq_of_perm _ _ (jsObjFromMap_perm st.multilingualIndex) ?_ k
    exact (((jsObjFromMap_perm st.multilingualIndex).map Prod.fst).nodup_iff).mpr hkeys
  show searchIdx (importKnowledgeBase (exportKnowledgeBase st now)).multilingualIndex
      query limit = searchIdx st.multilingualIndex query limit
  rw [hidx]
  exact searchIdx_congr _ _ hlookup query limit

/-- Claim C7 witness: round-tripping a concrete reachable state (one stored
document, one indexed part) reproduces the search results. -/
theorem c7_witness :
    searchKnowledge
        (importKnowledgeBase (exportKnowledgeBase scholarshipState "2026-02-03"))
        "scholarship fee" 5 =
      searchKnowledge scholarshipState "scholarship fee" 5 :=
  c7_export_import_roundtrip scholarshipState
    (ReachableDoc.index _ _ _ _ (ReachableDoc.store _ _ _ ReachableDoc.empty))
    "2026-02-03" "scholarship fee" 5
